import Mathlib

/-!
Shallow embedding of the `file_rotating_log` crate (src/rotator.rs, src/table.rs,
src/cron.rs, src/distributor.rs, src/time_past.rs) and proofs about it.

Machine integers (`usize` on a 64-bit target) are modelled as `Nat` together with
explicit reduction modulo `2 ^ 64` exactly where the source uses `wrapping_add` /
`wrapping_sub`; the checked (panicking-on-overflow) `+=` of the source is modelled
as an `Option`-valued operation that is `none` on overflow.  Filesystem effects
are modelled by an explicit mutable directory state plus an event trace.
-/

namespace FileRotatingLog

/-- Number of values of `usize` on the 64-bit target. -/
def USIZE : Nat := 2 ^ 64

/-- `usize::wrapping_add`. -/
def wadd (a b : Nat) : Nat := (a + b) % USIZE

/-- `usize::wrapping_sub` (operands assumed reduced, as all model values are). -/
def wsub (a b : Nat) : Nat := (a + (USIZE - b % USIZE)) % USIZE

/-- Value of one ascii decimal digit, `none` for other characters. -/
def digitVal (c : Char) : Option Nat :=
  if '0' ≤ c ∧ c ≤ '9' then some (c.toNat - 48) else none

/-- Accumulating decimal parse of a character list; the accumulator is `none`
until at least one digit has been seen, so the empty digit string fails. -/
def parseDigits : List Char → Option Nat → Option Nat
  | [], acc => acc
  | c :: cs, acc =>
    match digitVal c with
    | some d => parseDigits cs (some (acc.getD 0 * 10 + d))
    | none => none

/-- `str::parse::<usize>`: optional leading `+`, then one or more ascii digits,
rejecting values that do not fit in `usize` (Rust's `PosOverflow` error). -/
def parseUsize (s : String) : Option Nat :=
  let cs := match s.data with
    | '+' :: rest => rest
    | cs => cs
  match parseDigits cs none with
  | some v => if v < USIZE then some v else none
  | none => none

/-- Filesystem events emitted by the rotator, in program order.  Segment files
are identified by their epoch (the writer-supplied extension is fixed per
rotator and irrelevant to the properties proved here). -/
inductive Ev
  | openSeg (e : Nat)
  | writeMarker (e : Nat)
  | deleteSeg (e : Nat)
  | deleteMarker
deriving DecidableEq, Repr

/-- State of one rotator's output directory: the `epoch` marker file content
(if present) and the segment files, keyed by epoch, with their record count. -/
structure Fs where
  marker : Option String
  segs : List (Nat × Nat)
deriving DecidableEq, Repr

/-- First value stored under key `e` in an association list. -/
def assocFind : List (Nat × Nat) → Nat → Option Nat
  | [], _ => none
  | p :: rest, e => if p.1 = e then some p.2 else assocFind rest e

/-- Content of the segment file for epoch `e`, `none` when absent. -/
def segLookup (fs : Fs) (e : Nat) : Option Nat :=
  assocFind fs.segs e

/-- Store content `v` for epoch `e`, replacing any previous entry. -/
def segInsert (segs : List (Nat × Nat)) (e v : Nat) : List (Nat × Nat) :=
  (e, v) :: segs.filter (fun p => p.1 != e)

/-- Remove the entry for epoch `e`. -/
def segRemove (segs : List (Nat × Nat)) (e : Nat) : List (Nat × Nat) :=
  segs.filter (fun p => p.1 != e)

/-- `create_clean_log_writer` / `LogWriter::open`: create-or-truncate the
segment file for epoch `e` (its content becomes empty). -/
def openSegment (fs : Fs) (e : Nat) : Fs × List Ev :=
  ({ fs with segs := segInsert fs.segs e 0 }, [Ev.openSeg e])

/-- `write_epoch`: create-or-truncate the marker file with the decimal epoch. -/
def write_epoch (fs : Fs) (epoch : Nat) : Fs × List Ev :=
  ({ fs with marker := some (toString epoch) }, [Ev.writeMarker epoch])

/-- `delete_old_log_file`: delete the segment at `epoch.wrapping_sub(max_epochs)`
if it is present. -/
def delete_old_log_file (epoch max_epochs : Nat) (fs : Fs) : Fs × List Ev :=
  let del_epoch := wsub epoch max_epochs
  if (segLookup fs del_epoch).isSome then
    ({ fs with segs := segRemove fs.segs del_epoch }, [Ev.deleteSeg del_epoch])
  else
    (fs, [])

/-- `cur_epoch`: read the marker; absent gives `none`; unparsable content
deletes the marker file and gives `none`. -/
def cur_epoch (fs : Fs) : Option Nat × Fs × List Ev :=
  match fs.marker with
  | none => (none, fs, [])
  | some s =>
    match parseUsize s with
    | some epoch => (some epoch, fs, [])
    | none => (none, { fs with marker := none }, [Ev.deleteMarker])

/-! ### src/time_past.rs -/

/-- `TimePast`: stored previous instant plus the `TimeContains` capability.
Instants are abstract (`Nat`); the capability's `matches(interval)` is a
boolean function of the optional exclusive start and the inclusive end. -/
structure TimePast where
  prev : Option Nat
  containsFn : Option Nat → Nat → Bool

/-- `TimePast::poll`: build the interval from the stored previous instant to
`now`, unconditionally store `now` as the new previous, return the verdict. -/
def TimePast.poll (tp : TimePast) (now : Nat) : Bool × TimePast :=
  (tp.containsFn tp.prev now, { tp with prev := some now })

/-! ### src/table.rs -/

/-- `Table`: per-stream bookkeeping.  The owned writer `W` is represented by
the epoch of the segment file it was opened at (`writerSeg`). -/
structure Table where
  records_written : Nat
  epoch : Nat
  writerSeg : Nat
deriving DecidableEq, Repr

/-- `Table::new(writer, epoch)`. -/
def Table.new (writerSeg epoch : Nat) : Table :=
  { records_written := 0, epoch, writerSeg }

/-- `Table::replace`: install the new writer, `self.epoch += 1` (checked
addition: `none` models the overflow panic), reset the counter to 0. -/
def Table.replace (t : Table) (writerSeg : Nat) : Option Table :=
  if t.epoch + 1 < USIZE then
    some { records_written := 0, epoch := t.epoch + 1, writerSeg }
  else
    none

/-- `Table::incr_record_count`: `self.records_written += 1` (checked). -/
def Table.incr_record_count (t : Table) : Option Table :=
  if t.records_written + 1 < USIZE then
    some { t with records_written := t.records_written + 1 }
  else
    none

/-! ### src/rotator.rs -/

/-- `RotationPolicy`: optional max-records threshold (a `NonZeroUsize` in the
source), optional time trigger, retention window. -/
structure RotationPolicy where
  max_records : Option Nat
  time : Option TimePast
  max_epochs : Nat

/-- `LogRotator` (the `output_dir` field is implicit: the `Fs` state passed to
each operation is that directory). -/
structure LogRotator where
  table : Table
  rotation : RotationPolicy

/-- `LogRotator::enforce_epoch`: write the marker for the current epoch, then
delete the segment at `epoch - max_epochs` (wrapping) if present. -/
def LogRotator.enforce_epoch (r : LogRotator) (fs : Fs) : Fs × List Ev :=
  let (fs1, ev1) := write_epoch fs r.table.epoch
  let (fs2, ev2) := delete_old_log_file r.table.epoch r.rotation.max_epochs fs1
  (fs2, ev1 ++ ev2)

/-- `LogRotator::new`: read the marker (`cur_epoch`), resume at
`marker.wrapping_add(1)` or 0, open the segment for the resumed epoch, then
run epoch enforcement. -/
def LogRotator.new (fs : Fs) (rotation : RotationPolicy) :
    LogRotator × Fs × List Ev :=
  let (e0, fs, ev0) := cur_epoch fs
  let epoch := match e0 with
    | some e => wadd e 1
    | none => 0
  let (fs, ev1) := openSegment fs epoch
  let table := Table.new epoch epoch
  let this : LogRotator := ⟨table, rotation⟩
  let (fs, ev2) := this.enforce_epoch fs
  (this, fs, ev0 ++ ev1 ++ ev2)

/-- `LogRotator::replace_writer`: open a fresh segment at
`epoch.wrapping_add(1)`, then `Table::replace` (which can trap, see
`Table.replace`). -/
def LogRotator.replace_writer (r : LogRotator) (fs : Fs) :
    Option (LogRotator × Fs × List Ev) :=
  let new_seg := wadd r.table.epoch 1
  let (fs, evs) := openSegment fs new_seg
  match r.table.replace new_seg with
  | some t => some ({ r with table := t }, fs, evs)
  | none => none

/-- `LogRotator::try_rotate_file`: evaluate the max-records trigger and (if
configured) poll the time trigger with `now` — the poll always advances the
stored previous instant; if neither fired, return; otherwise replace the
writer and re-run epoch enforcement. -/
def LogRotator.try_rotate_file (r : LogRotator) (fs : Fs) (now : Nat) :
    Option (LogRotator × Fs × List Ev) :=
  let is_max_records_triggered := match r.rotation.max_records with
    | some max_records => decide (max_records ≤ r.table.records_written)
    | none => false
  let (is_time_triggered, time) := match r.rotation.time with
    | some time_past =>
      let (b, tp) := time_past.poll now
      (b, some tp)
    | none => (false, none)
  let r := { r with rotation := { r.rotation with time } }
  let should_rotate := is_max_records_triggered || is_time_triggered
  if should_rotate then
    match r.replace_writer fs with
    | some (r, fs, evs) =>
      let (fs, evs2) := r.enforce_epoch fs
      some (r, fs, evs ++ evs2)
    | none => none
  else
    some (r, fs, [])

/-- `LogRotator::incr_record_count`: bump the table counter, then
`try_rotate_file`. -/
def LogRotator.incr_record_count (r : LogRotator) (fs : Fs) (now : Nat) :
    Option (LogRotator × Fs × List Ev) :=
  match r.table.incr_record_count with
  | some t => LogRotator.try_rotate_file { r with table := t } fs now
  | none => none

/-- `LogRotator::flush`: delegates to the writer; no change to directory
state or rotator bookkeeping. -/
def LogRotator.flush (r : LogRotator) (fs : Fs) : LogRotator × Fs :=
  (r, fs)

/-! ### src/cron.rs

Field values are modelled as `Int` (`i16` in the source widened where the
source converts; only `Eq`/`Ord` are used, so no overflow arises).  `AllowedSet`
is only constructible from a `BTreeSet`, so its list is sorted and duplicate
free; binary search over it computes plain membership, which is how
`is_allowed` is modelled. -/

/-- `AllowedSet`: non-empty sorted list of permitted values. -/
structure AllowedSet where
  allowed : List Int
deriving DecidableEq, Repr

/-- `AllowedSet::is_allowed`: membership (`binary_search(..).is_ok()` on the
sorted `allowed` vector). -/
def AllowedSet.is_allowed (s : AllowedSet) (value : Int) : Bool :=
  s.allowed.contains value

/-- `AllowedSet::next`: the successor of `value` among adjacent pairs, else
the first element. -/
def AllowedSet.next (s : AllowedSet) (value : Int) : Int :=
  let rec go : List Int → Int
    | a :: b :: rest => if a = value then b else go (b :: rest)
    | _ => s.allowed.headD 0
  go s.allowed

/-- `AllowedSet2`: unconstrained (`Any`) or an explicit set. -/
inductive AllowedSet2
  | Any
  | Selected (allowed : AllowedSet)
deriving DecidableEq, Repr

/-- `AllowedSet2::is_allowed`. -/
def AllowedSet2.is_allowed : AllowedSet2 → Int → Bool
  | .Any, _ => true
  | .Selected allowed, value => allowed.is_allowed value

/-- `Cell`: a field's allow-set plus the last observed value
(`None` until first recorded). -/
structure Cell where
  instr : AllowedSet2
  prev : Option Int
deriving DecidableEq, Repr

/-- `Cell::new`. -/
def Cell.new (instr : AllowedSet2) : Cell :=
  { instr, prev := none }

/-- `Cell::has_set`. -/
def Cell.has_set (c : Cell) (value : Int) : Bool :=
  c.prev == some value

/-- `Cell::set`. -/
def Cell.set (c : Cell) (value : Int) : Cell :=
  { c with prev := some value }

/-- `Cell::is_allowed`. -/
def Cell.is_allowed (c : Cell) (value : Int) : Bool :=
  c.instr.is_allowed value

/-- `SlotMatcher`: the list of cells. -/
structure SlotMatcher where
  cells : List Cell
deriving DecidableEq, Repr

/-- `SlotMatcher::new`: one cell per given allow-set, plus the implicit
trailing unconstrained cell. -/
def SlotMatcher.new (allowed : List AllowedSet2) : SlotMatcher :=
  ⟨allowed.map Cell.new ++ [Cell.new .Any]⟩

/-- `SlotMatcher::edge_triggered_poll`.  The source asserts
`cells.len() == values.len()`; the assertion failure is modelled as `none`.
If some field is not allowed, return `false` without touching any cell;
otherwise record every value and report a match unless every field's stored
value already equalled its current value. -/
def SlotMatcher.edge_triggered_poll (m : SlotMatcher) (values : List Int) :
    Option (Bool × SlotMatcher) :=
  if m.cells.length = values.length then
    let is_all_allowed :=
      (m.cells.zip values).all fun cv => cv.1.is_allowed cv.2
    if !is_all_allowed then
      some (false, m)
    else
      let has_all_set :=
        (m.cells.zip values).all fun cv => cv.1.has_set cv.2
      let cells := (m.cells.zip values).map fun cv => cv.1.set cv.2
      some (!has_all_set, ⟨cells⟩)
  else
    none

/-- Abstract instant handed to `Cron::edge_triggered_poll` — the fields of a
`jiff::Zoned` that the source reads.  `dayOfMonth` is carried although the
source never reads it, so that independence from it is statable. -/
structure ZonedInstant where
  minute : Int
  hour : Int
  dayOfMonth : Int
  daysInMonth : Int
  month : Int
  weekdayNum : Int
  year : Int
deriving DecidableEq, Repr

/-- `Cron`: a slot matcher over the five configured calendar fields. -/
structure Cron where
  slot_matcher : SlotMatcher
deriving DecidableEq, Repr

/-- `Cron::new`. -/
def Cron.new (minute hour day_of_month month day_of_week : AllowedSet2) :
    Cron :=
  ⟨SlotMatcher.new [minute, hour, day_of_month, month, day_of_week]⟩

/-- `Cron::edge_triggered_poll`: note the third supplied value is
`now.days_in_month()`, and the sixth is the year. -/
def Cron.edge_triggered_poll (c : Cron) (now : ZonedInstant) :
    Option (Bool × Cron) :=
  let values := [now.minute, now.hour, now.daysInMonth, now.month,
    now.weekdayNum, now.year]
  match c.slot_matcher.edge_triggered_poll values with
  | some (b, m) => some (b, ⟨m⟩)
  | none => none

/-! ### src/distributor.rs -/

/-- `LogDistributor`: stream registry (association list keyed by stream name)
plus the shared policy.  The per-stream directories are carried alongside as
an association list of `Fs` states keyed by the same names. -/
structure LogDistributor where
  rotators : List (String × LogRotator)
  rotation : RotationPolicy

/-- `LogDistributor::incr_record_count`: if the name was never registered,
return without doing anything; otherwise delegate to that stream's rotator
(threading its directory state, and reporting its events). -/
def LogDistributor.incr_record_count (d : LogDistributor)
    (fss : List (String × Fs)) (table_name : String) (now : Nat) :
    Option (LogDistributor × List (String × Fs) × List Ev) :=
  match d.rotators.lookup table_name with
  | none => some (d, fss, [])
  | some r =>
    let fs := (fss.lookup table_name).getD ⟨none, []⟩
    match r.incr_record_count fs now with
    | some (r', fs', evs) =>
      some ({ d with
              rotators := (table_name, r') ::
                d.rotators.filter (fun p => p.1 != table_name) },
            (table_name, fs') :: fss.filter (fun p => p.1 != table_name),
            evs)
    | none => none

/-! ### Helper lemmas -/

theorem usizeValue : USIZE = 18446744073709551616 := by norm_num [USIZE]

theorem assocFind_filter_ne (l : List (Nat × Nat)) (e e' : Nat) (h : e' ≠ e) :
    assocFind (l.filter fun p => p.1 != e) e' = assocFind l e' := by
  induction l with
  | nil => rfl
  | cons p rest ih =>
    rw [List.filter_cons]
    by_cases hp : p.1 = e
    · have hb : (p.1 != e) = false := by simp [hp]
      rw [hb]
      simp only [Bool.false_eq_true, if_false, ih, assocFind]
      rw [if_neg (by rw [hp]; omega)]
    · have hb : (p.1 != e) = true := by simp [hp]
      rw [hb]
      simp only [if_true]
      simp [assocFind, ih]

theorem assocFind_filter_self (l : List (Nat × Nat)) (e : Nat) :
    assocFind (l.filter fun p => p.1 != e) e = none := by
  induction l with
  | nil => rfl
  | cons p rest ih =>
    rw [List.filter_cons]
    by_cases hp : p.1 = e
    · have hb : (p.1 != e) = false := by simp [hp]
      rw [hb]
      simpa using ih
    · have hb : (p.1 != e) = true := by simp [hp]
      rw [hb]
      simp only [if_true]
      simp [assocFind, hp, ih]

theorem segLookup_insert_ne (fs : Fs) (e v e' : Nat) (h : e' ≠ e) :
    segLookup { fs with segs := segInsert fs.segs e v } e' = segLookup fs e' := by
  simp only [segLookup, segInsert, assocFind]
  rw [if_neg (fun hc => h hc.symm), assocFind_filter_ne _ _ _ h]

theorem segLookup_remove_ne (fs : Fs) (e e' : Nat) (h : e' ≠ e) :
    segLookup { fs with segs := segRemove fs.segs e } e' = segLookup fs e' := by
  simp only [segLookup, segRemove]
  exact assocFind_filter_ne _ _ _ h

theorem segLookup_remove_self (fs : Fs) (e : Nat) :
    segLookup { fs with segs := segRemove fs.segs e } e = none := by
  simp only [segLookup, segRemove]
  exact assocFind_filter_self _ _

theorem wadd_eq_of_lt {a b : Nat} (h : a + b < USIZE) : wadd a b = a + b := by
  simp [wadd, Nat.mod_eq_of_lt h]

theorem wadd_one_ne {a : Nat} (h : a < USIZE) : wadd a 1 ≠ a := by
  rw [usizeValue] at *
  simp only [wadd, usizeValue]
  omega

theorem wsub_wadd_one_ne {a m : Nat} (ha : a < USIZE) (hm : m < USIZE)
    (h1 : m ≠ 1) : wsub (wadd a 1) m ≠ a := by
  rw [usizeValue] at *
  simp only [wadd, wsub, usizeValue]
  omega

theorem parseUsize_lt {s : String} {v : Nat} (h : parseUsize s = some v) :
    v < USIZE := by
  simp only [parseUsize] at h
  split at h
  · split at h
    · injection h with h'
      omega
    · exact absurd h (by simp)
  · exact absurd h (by simp)

/-! ### Table operation dispatcher (src/table.rs public methods) -/

/-- One public `Table` operation: mutable writer access, counter increment,
writer replacement (carrying the new writer's segment), or flush. -/
inductive TableOp
  | writerAccess
  | incr
  | replace (writerSeg : Nat)
  | flushOp
deriving DecidableEq, Repr

/-- Effect of one `Table` operation on the bookkeeping state (`writer()` and
`flush()` do not change it; `incr_record_count` and `replace` are the checked
source operations). -/
def Table.step (t : Table) : TableOp → Option Table
  | .writerAccess => some t
  | .incr => t.incr_record_count
  | .replace w => t.replace w
  | .flushOp => some t

/-- C8: the claim says all epoch arithmetic wraps and never traps, but
`Table::replace` performs `self.epoch += 1`, a checked addition: at the
maximum representable epoch it overflows (panics under overflow checks)
instead of wrapping, while `replace_writer` had just computed the new
segment's path with `wrapping_add`.  Evaluated at the failing input: -/
theorem c8_replace_add_is_checked :
    (Table.new 0 (USIZE - 1)).replace 0 = none ∧
    wadd (USIZE - 1) 1 = 0 ∧
    wsub 0 1 = USIZE - 1 := by
  refine ⟨?_, ?_, ?_⟩
  · simp only [Table.new, Table.replace, usizeValue]
    norm_num
  · simp only [wadd, usizeValue]
  · simp only [wsub, usizeValue]

/-- C7: in every `Table` operation step, the records-written counter is reset
to 0 with the epoch advancing by exactly 1 exactly when the operation is
`replace`; every other operation leaves the epoch unchanged and never resets
a non-zero counter. -/
theorem c7_counter_reset_iff_replace (t : Table) (op : TableOp) (t' : Table)
    (h : t.step op = some t') :
    ((∃ w, op = TableOp.replace w) ↔
      (t'.records_written = 0 ∧ t'.epoch = t.epoch + 1)) ∧
    ((∀ w, op ≠ TableOp.replace w) →
      t'.epoch = t.epoch ∧ (t'.records_written = 0 → t.records_written = 0)) := by
  cases op with
  | writerAccess =>
    simp only [Table.step, Option.some.injEq] at h
    subst h
    refine ⟨⟨?_, ?_⟩, fun _ => ⟨rfl, id⟩⟩
    · rintro ⟨w, hw⟩
      cases hw
    · rintro ⟨-, he⟩
      omega
  | incr =>
    simp only [Table.step, Table.incr_record_count] at h
    split at h
    · simp only [Option.some.injEq] at h
      subst h
      refine ⟨⟨?_, ?_⟩, fun _ => ⟨rfl, fun hr => by simp at hr⟩⟩
      · rintro ⟨w, hw⟩
        cases hw
      · rintro ⟨hr, -⟩
        simp at hr
    · exact absurd h (by simp)
  | replace w =>
    simp only [Table.step, Table.replace] at h
    split at h
    · simp only [Option.some.injEq] at h
      subst h
      refine ⟨⟨fun _ => ⟨rfl, rfl⟩, fun _ => ⟨w, rfl⟩⟩, fun hno => ?_⟩
      exact absurd rfl (hno w)
    · exact absurd h (by simp)
  | flushOp =>
    simp only [Table.step, Option.some.injEq] at h
    subst h
    refine ⟨⟨?_, ?_⟩, fun _ => ⟨rfl, id⟩⟩
    · rintro ⟨w, hw⟩
      cases hw
    · rintro ⟨-, he⟩
      omega

/-- Witness for C7 at a concrete replace step. -/
theorem c7_witness :
    ((∃ w, TableOp.replace 7 = TableOp.replace w) ↔
      ((⟨0, 1, 7⟩ : Table).records_written = 0 ∧
        (⟨0, 1, 7⟩ : Table).epoch = (Table.new 0 0).epoch + 1)) ∧
    ((∀ w, TableOp.replace 7 ≠ TableOp.replace w) →
      (⟨0, 1, 7⟩ : Table).epoch = (Table.new 0 0).epoch ∧
        ((⟨0, 1, 7⟩ : Table).records_written = 0 →
          (Table.new 0 0).records_written = 0)) :=
  c7_counter_reset_iff_replace (Table.new 0 0) (TableOp.replace 7) ⟨0, 1, 7⟩
    (by simp [Table.step, Table.new, Table.replace, usizeValue])

/-- C9: `LogDistributor::incr_record_count` on a never-registered stream name
is a no-op: no rotator is created, no directory state changes, and every
registered stream's state is untouched. -/
theorem c9_incr_unregistered_noop (d : LogDistributor)
    (fss : List (String × Fs)) (table_name : String) (now : Nat)
    (h : d.rotators.lookup table_name = none) :
    d.incr_record_count fss table_name now = some (d, fss, []) := by
  simp [LogDistributor.incr_record_count, h]

/-- Witness for C9: empty registry, concrete name. -/
theorem c9_witness :
    LogDistributor.incr_record_count ⟨[], ⟨none, none, 0⟩⟩ [] "events" 3 =
      some (⟨[], ⟨none, none, 0⟩⟩, [], []) :=
  c9_incr_unregistered_noop ⟨[], ⟨none, none, 0⟩⟩ [] "events" 3 rfl

theorem none_beq_some (v : Int) : ((none : Option Int) == some v) = false := rfl

theorem any_is_allowed (v : Int) : AllowedSet2.Any.is_allowed v = true := rfl

theorem zip_set_prevs (cs : List Cell) (vs : List Int)
    (h : cs.length = vs.length) :
    ((cs.zip vs).map fun cv => cv.1.set cv.2).map Cell.prev = vs.map some := by
  induction cs generalizing vs with
  | nil =>
    cases vs with
    | nil => rfl
    | cons v vs => simp at h
  | cons c cs ih =>
    cases vs with
    | nil => simp at h
    | cons v vs =>
      simp only [List.length_cons] at h
      exact congrArg (List.cons (some v)) (ih vs (by omega))

/-- C10: `Cron::edge_triggered_poll` matches the `day_of_month` allow-set
against `now.days_in_month()` (not the day of the month), supplies the
weekday's numeric encoding for the `day_of_week` field, tracks the year in
the implicit trailing unconstrained cell, and its result is independent of
the instant's actual day-of-month. -/
theorem c10_cron_field_wiring (m h dom mo dow : AllowedSet2)
    (now : ZonedInstant) (d : Int) :
    (Cron.new m h dom mo dow).edge_triggered_poll now =
      some (m.is_allowed now.minute && h.is_allowed now.hour &&
          dom.is_allowed now.daysInMonth && mo.is_allowed now.month &&
          dow.is_allowed now.weekdayNum,
        if m.is_allowed now.minute && h.is_allowed now.hour &&
            dom.is_allowed now.daysInMonth && mo.is_allowed now.month &&
            dow.is_allowed now.weekdayNum then
          ⟨⟨[⟨m, some now.minute⟩, ⟨h, some now.hour⟩,
            ⟨dom, some now.daysInMonth⟩, ⟨mo, some now.month⟩,
            ⟨dow, some now.weekdayNum⟩, ⟨.Any, some now.year⟩]⟩⟩
        else Cron.new m h dom mo dow) ∧
    (∀ c : Cron, c.edge_triggered_poll { now with dayOfMonth := d } =
        c.edge_triggered_poll now) := by
  constructor
  · cases hm : m.is_allowed now.minute <;>
    cases hh : h.is_allowed now.hour <;>
    cases hdo : dom.is_allowed now.daysInMonth <;>
    cases hmo : mo.is_allowed now.month <;>
    cases hdw : dow.is_allowed now.weekdayNum <;>
    simp [Cron.new, Cron.edge_triggered_poll, SlotMatcher.new,
      SlotMatcher.edge_triggered_poll, Cell.new, Cell.is_allowed, Cell.has_set,
      Cell.set, any_is_allowed, none_beq_some, hm, hh, hdo, hmo, hdw]
  · intro c
    rfl

/-- C5 counterexample: a poll whose tuple is not allowed returns early and
does NOT overwrite the stored values (they stay `none`, not the inputs),
contradicting the claimed unconditional overwrite. -/
def c5matcher : SlotMatcher := SlotMatcher.new [AllowedSet2.Selected ⟨[1]⟩]

theorem c5_counterexample :
    c5matcher.edge_triggered_poll [2, 0] = some (false, c5matcher) ∧
    c5matcher.cells.map Cell.prev = [none, none] ∧
    ([none, none] : List (Option Int)) ≠ [some 2, some 0] :=
  ⟨by decide, by decide, by decide⟩

/-- C5 (amended): after `edge_triggered_poll`, every field's stored value
equals the corresponding input value provided the tuple is allowed; when some
field's value lies outside its allow-set the poll returns `false` early and
every stored value is left unchanged. -/
theorem c5_state_update (mt : SlotMatcher) (values : List Int)
    (hlen : mt.cells.length = values.length) :
    ((mt.cells.zip values).all (fun cv => cv.1.is_allowed cv.2) = true →
      ∃ b mt', mt.edge_triggered_poll values = some (b, mt') ∧
        mt'.cells.map Cell.prev = values.map some) ∧
    ((mt.cells.zip values).all (fun cv => cv.1.is_allowed cv.2) = false →
      mt.edge_triggered_poll values = some (false, mt)) := by
  constructor
  · intro hall
    refine ⟨!(mt.cells.zip values).all (fun cv => cv.1.has_set cv.2),
      ⟨(mt.cells.zip values).map fun cv => cv.1.set cv.2⟩, ?_, ?_⟩
    · simp [SlotMatcher.edge_triggered_poll, hlen, hall]
    · exact zip_set_prevs _ _ hlen
  · intro hall
    simp [SlotMatcher.edge_triggered_poll, hlen, hall]

/-- Witness for C5's amended theorem at a concrete allowed poll. -/
theorem c5_witness :
    ∃ b mt', c5matcher.edge_triggered_poll [1, 5] = some (b, mt') ∧
      mt'.cells.map Cell.prev = ([1, 5] : List Int).map some :=
  (c5_state_update c5matcher [1, 5] (by decide)).1 (by decide)

/-- C1 counterexample data: marker holds `5`, segment 5 is present with some
records, and the retention window is `max_epochs = 1`. -/
def c1fs : Fs := ⟨some "5", [(5, 3)]⟩

/-- C1 counterexample policy (`max_epochs = 1`). -/
def c1policy : RotationPolicy := ⟨none, none, 1⟩

/-- C1 counterexample: with a parsable marker `E = 5` and `max_epochs = 1`,
construction does NOT leave segment `E` untouched — epoch enforcement's
retention deletion removes it (`(E+1) - max_epochs = E`). -/
theorem c1_counterexample :
    segLookup c1fs 5 = some 3 ∧
    segLookup (LogRotator.new c1fs c1policy).2.1 5 = none ∧
    (LogRotator.new c1fs c1policy).1.table.epoch = 6 :=
  ⟨by decide, by decide, by decide⟩

/-- C1 (amended): at construction, an absent marker resumes at epoch 0; a
marker parsing as `E` resumes at `E+1` (wrapping) opening a fresh
create-or-truncate segment for `E+1`, and leaves segment `E` untouched
provided `max_epochs ≠ 1` (with `max_epochs = 1` retention deletes it, as the
counterexample shows); an unparsable marker is deleted and the rotator
resumes at epoch 0. -/
theorem c1_construction (fs : Fs) (rotation : RotationPolicy)
    (hm : rotation.max_epochs < USIZE) :
    (fs.marker = none →
      (LogRotator.new fs rotation).1.table.epoch = 0 ∧
      Ev.openSeg 0 ∈ (LogRotator.new fs rotation).2.2) ∧
    (∀ s E, fs.marker = some s → parseUsize s = some E →
      (LogRotator.new fs rotation).1.table.epoch = wadd E 1 ∧
      Ev.openSeg (wadd E 1) ∈ (LogRotator.new fs rotation).2.2 ∧
      (rotation.max_epochs ≠ 1 →
        segLookup (LogRotator.new fs rotation).2.1 E = segLookup fs E)) ∧
    (∀ s, fs.marker = some s → parseUsize s = none →
      (LogRotator.new fs rotation).1.table.epoch = 0 ∧
      Ev.deleteMarker ∈ (LogRotator.new fs rotation).2.2) := by
  refine ⟨?_, ?_, ?_⟩
  · intro hnone
    simp [LogRotator.new, cur_epoch, hnone, openSegment, Table.new,
      LogRotator.enforce_epoch, write_epoch, delete_old_log_file]
  · intro s E hsome hparse
    have hE : E < USIZE := parseUsize_lt hparse
    have hne1 : E ≠ wadd E 1 := fun hc => (wadd_one_ne hE) hc.symm
    have key : ∀ l : List (Nat × Nat),
        assocFind (segInsert l (wadd E 1) 0) E = assocFind l E := by
      intro l
      simp only [segInsert, assocFind]
      rw [if_neg (fun hc => (wadd_one_ne hE) hc)]
      exact assocFind_filter_ne _ _ _ hne1
    refine ⟨?_, ?_, ?_⟩
    · simp [LogRotator.new, cur_epoch, hsome, hparse, openSegment, Table.new,
        LogRotator.enforce_epoch, write_epoch, delete_old_log_file]
    · simp [LogRotator.new, cur_epoch, hsome, hparse, openSegment, Table.new,
        LogRotator.enforce_epoch, write_epoch, delete_old_log_file]
    · intro h1
      have hne2 : E ≠ wsub (wadd E 1) rotation.max_epochs :=
        Ne.symm (wsub_wadd_one_ne hE hm h1)
      have hnew : (LogRotator.new fs rotation).2.1 =
          (delete_old_log_file (wadd E 1) rotation.max_epochs
            { fs with marker := some (toString (wadd E 1)),
                      segs := segInsert fs.segs (wadd E 1) 0 }).1 := by
        simp [LogRotator.new, cur_epoch, hsome, hparse, openSegment, Table.new,
          LogRotator.enforce_epoch, write_epoch]
      rw [hnew]
      simp only [delete_old_log_file]
      split
      · show assocFind (segRemove (segInsert fs.segs (wadd E 1) 0)
            (wsub (wadd E 1) rotation.max_epochs)) E = assocFind fs.segs E
        rw [show segRemove (segInsert fs.segs (wadd E 1) 0)
              (wsub (wadd E 1) rotation.max_epochs) =
            (segInsert fs.segs (wadd E 1) 0).filter
              (fun p => p.1 != wsub (wadd E 1) rotation.max_epochs) from rfl]
        rw [assocFind_filter_ne _ _ _ hne2]
        exact key fs.segs
      · exact key fs.segs
  · intro s hsome hparse
    simp [LogRotator.new, cur_epoch, hsome, hparse, openSegment, Table.new,
      LogRotator.enforce_epoch, write_epoch, delete_old_log_file]

/-- Witness for C1's amended theorem: marker `7`, segment 7 present,
`max_epochs = 2`. -/
theorem c1_witness :
    (LogRotator.new ⟨some "7", [(7, 2)]⟩ ⟨none, none, 2⟩).1.table.epoch =
      wadd 7 1 ∧
    Ev.openSeg (wadd 7 1) ∈
      (LogRotator.new ⟨some "7", [(7, 2)]⟩ ⟨none, none, 2⟩).2.2 ∧
    ((⟨none, none, 2⟩ : RotationPolicy).max_epochs ≠ 1 →
      segLookup (LogRotator.new ⟨some "7", [(7, 2)]⟩ ⟨none, none, 2⟩).2.1 7 =
        segLookup ⟨some "7", [(7, 2)]⟩ 7) :=
  (c1_construction ⟨some "7", [(7, 2)]⟩ ⟨none, none, 2⟩ (by decide)).2.1
    "7" 7 rfl (by decide)

/-! ### C3 scenario: `max_records = 2`, `max_epochs = 2`, no time trigger -/

/-- Policy of the retention scenario. -/
def c3policy : RotationPolicy := ⟨some 2, none, 2⟩

/-- One `Logger::write`: serialize a record through the active writer (bump
the active segment's record count), then `incr_record_count` (which may
rotate).  The `now` argument is irrelevant: no time trigger is configured. -/
def c3write (p : LogRotator × Fs) : Option (LogRotator × Fs) :=
  let fs := match assocFind p.2.segs p.1.table.writerSeg with
    | some n => { p.2 with segs := segInsert p.2.segs p.1.table.writerSeg (n + 1) }
    | none => p.2
  match p.1.incr_record_count fs 0 with
  | some (r, fs, _) => some (r, fs)
  | none => none

/-- Scenario start: fresh directory. -/
def c3s0 : LogRotator × Fs :=
  ((LogRotator.new ⟨none, []⟩ c3policy).1, (LogRotator.new ⟨none, []⟩ c3policy).2.1)

/-- After writing `a`, `b` and flushing. -/
def c3s1 : Option (LogRotator × Fs) :=
  ((c3write c3s0).bind c3write).map fun p => p.1.flush p.2

/-- After then writing `c`. -/
def c3s2 : Option (LogRotator × Fs) := c3s1.bind c3write

/-- After the second flush. -/
def c3s3 : Option (LogRotator × Fs) := c3s2.map fun p => p.1.flush p.2

/-- After then writing `d`. -/
def c3s4 : Option (LogRotator × Fs) := c3s3.bind c3write

/-- Whether the segment for epoch `e` is present on disk at a scenario state. -/
def presentAt (s : Option (LogRotator × Fs)) (e : Nat) : Option Bool :=
  s.map fun p => (segLookup p.2 e).isSome

/-- C3 counterexample: writing `b` already brings the counter to
`max_records = 2`, so rotation happens at `b`, not at `c`; after `a`, `b` and
the flush, segment 1 is already present, contradicting the claimed "{1} is
absent" at that checkpoint. -/
theorem c3_counterexample :
    presentAt c3s1 1 = some true ∧ presentAt c3s1 1 ≠ some false :=
  ⟨by decide, by decide⟩

/-- C3 (amended): with `max_records = 2`, `max_epochs = 2` and the sequence
write `a`, write `b`, flush, write `c`, flush, write `d`: after `a`, `b` and
the flush, segments {0,1} are present and {2} absent (rotation fired at `b`);
after `c` unchanged ({0,1} present, {2} absent); after the flush unchanged;
after `d`, {0} is absent, {1,2} are present and {3} is absent. -/
theorem c3_retention_scenario :
    presentAt c3s1 0 = some true ∧ presentAt c3s1 1 = some true ∧
    presentAt c3s1 2 = some false ∧
    presentAt c3s2 0 = some true ∧ presentAt c3s2 1 = some true ∧
    presentAt c3s2 2 = some false ∧
    presentAt c3s3 0 = some true ∧ presentAt c3s3 1 = some true ∧
    presentAt c3s3 2 = some false ∧
    presentAt c3s4 0 = some false ∧ presentAt c3s4 1 = some true ∧
    presentAt c3s4 2 = some true ∧ presentAt c3s4 3 = some false := by
  decide

/-! ### C2: marker writes ordered after segment opens -/

/-- Scans an event trace left to right, carrying the set of epochs whose
segment file has been opened so far, and checks that every marker write names
an epoch whose segment was opened strictly earlier in the trace. -/
def markerAfterOpenB (opened : List Nat) : List Ev → Bool
  | [] => true
  | Ev.openSeg e :: rest => markerAfterOpenB (e :: opened) rest
  | Ev.writeMarker e :: rest => opened.contains e && markerAfterOpenB opened rest
  | Ev.deleteSeg _ :: rest => markerAfterOpenB opened rest
  | Ev.deleteMarker :: rest => markerAfterOpenB opened rest

theorem try_rotate_marker_after_open (r : LogRotator) (fs : Fs) (now : Nat)
    (r' : LogRotator) (fs' : Fs) (evs : List Ev)
    (h : r.try_rotate_file fs now = some (r', fs', evs)) :
    markerAfterOpenB [] evs = true := by
  obtain ⟨⟨rec, ep, ws⟩, mr, tm, me⟩ := r
  simp only [LogRotator.try_rotate_file] at h
  cases mr <;> cases tm <;>
    simp only [Bool.false_or, Bool.or_false] at h <;>
    [skip; (rename_i tp; cases htp : tp.containsFn tp.prev now);
     (rename_i m; cases hm : decide (m ≤ rec));
     (rename_i m tp; cases hm : decide (m ≤ rec) <;>
        cases htp : tp.containsFn tp.prev now)] <;>
  simp_all only [TimePast.poll, Bool.or_self, Bool.false_or, Bool.or_false,
    Bool.or_true, Bool.true_or, if_true, if_false, Bool.false_eq_true,
    ite_false, ite_true] <;>
  first
  | (simp only [Option.some.injEq, Prod.mk.injEq] at h
     obtain ⟨-, -, hevs⟩ := h
     simp [← hevs, markerAfterOpenB])
  | (simp only [LogRotator.replace_writer, openSegment, Table.replace,
       LogRotator.enforce_epoch, write_epoch] at h
     split at h
     · rename_i hmatch
       simp only [Option.some.injEq, Prod.mk.injEq] at h
       obtain ⟨-, -, hevs⟩ := h
       split at hmatch
       · rename_i t hif
         split at hif
         · rename_i hlt2
           injection hif with ht
           subst ht
           rw [wadd_eq_of_lt hlt2] at hmatch
           simp only [Option.some.injEq, Prod.mk.injEq] at hmatch
           obtain ⟨hr2, hfs2, hevs2⟩ := hmatch
           subst hr2
           subst hfs2
           subst hevs2
           rw [← hevs]
           simp only [delete_old_log_file]
           split <;> simp [markerAfterOpenB]
         · cases hif
       · cases hmatch
     · exact absurd h (by simp))

/-- C2: in every construction trace and every (attempted) rotation trace, a
marker write for epoch `e` occurs only strictly after the segment for `e`
was opened in that same trace. -/
theorem c2_marker_write_after_segment_open (fs : Fs)
    (rotation : RotationPolicy) (r : LogRotator) (now : Nat) :
    markerAfterOpenB [] (LogRotator.new fs rotation).2.2 = true ∧
    (∀ r' fs' evs, r.try_rotate_file fs now = some (r', fs', evs) →
      markerAfterOpenB [] evs = true) ∧
    (∀ r' fs' evs, r.incr_record_count fs now = some (r', fs', evs) →
      markerAfterOpenB [] evs = true) := by
  refine ⟨?_, fun r' fs' evs h => try_rotate_marker_after_open _ _ _ _ _ _ h,
    fun r' fs' evs h => ?_⟩
  · cases hmk : fs.marker with
    | none =>
      simp only [LogRotator.new, cur_epoch, hmk, openSegment, Table.new,
        LogRotator.enforce_epoch, write_epoch, delete_old_log_file]
      split <;> simp [markerAfterOpenB]
    | some s =>
      cases hp : parseUsize s <;>
        simp only [LogRotator.new, cur_epoch, hmk, hp, openSegment, Table.new,
          LogRotator.enforce_epoch, write_epoch, delete_old_log_file] <;>
        split <;> simp [markerAfterOpenB]
  · simp only [LogRotator.incr_record_count] at h
    cases hi : r.table.incr_record_count with
    | some t =>
      rw [hi] at h
      exact try_rotate_marker_after_open _ _ _ _ _ _ h
    | none =>
      rw [hi] at h
      exact absurd h (by simp)

/-- Witness for C2 at a concrete rotation (`max_records = 1`, counter 1):
the rotation trace opens segment 1 and only then writes marker 1. -/
theorem c2_witness :
    markerAfterOpenB [] [Ev.openSeg 1, Ev.writeMarker 1] = true :=
  (c2_marker_write_after_segment_open ⟨some "0", [(0, 1)]⟩ ⟨some 1, none, 2⟩
      ⟨⟨1, 0, 0⟩, ⟨some 1, none, 2⟩⟩ 0).2.1
    ⟨⟨0, 1, 1⟩, ⟨some 1, none, 2⟩⟩ ⟨some "1", [(1, 0), (0, 1)]⟩
    [Ev.openSeg 1, Ev.writeMarker 1] rfl

/-! ### C4: rotation happens exactly when a trigger fires -/

/-- The trigger condition evaluated by `try_rotate_file`: the max-records
trigger (configured and `counter >= max_records`) or the time trigger
(configured and its predicate reports a boundary for the stored previous
instant and `now`). -/
def rotateTriggered (r : LogRotator) (now : Nat) : Bool :=
  (match r.rotation.max_records with
   | some max_records => decide (max_records ≤ r.table.records_written)
   | none => false) ||
  (match r.rotation.time with
   | some tp => tp.containsFn tp.prev now
   | none => false)

/-- The rotator with only the configured time trigger's stored previous
instant advanced to `now` — the sole state change of a non-rotating call. -/
def pollOnly (r : LogRotator) (now : Nat) : LogRotator :=
  { r with rotation := { r.rotation with
      time := r.rotation.time.map fun tp => { tp with prev := some now } } }

/-- Post-state of one rotation's epoch enforcement: the fresh segment's open
and the marker write are in the trace, the marker file holds the new epoch,
and the retention target is absent afterwards. -/
theorem rotate_exists (fs : Fs) (epoch me : Nat) :
    ∃ fs' evs,
      ((delete_old_log_file epoch me
          { marker := some (toString epoch),
            segs := segInsert fs.segs epoch 0 }).1 = fs' ∧
        Ev.openSeg epoch :: Ev.writeMarker epoch ::
          (delete_old_log_file epoch me
            { marker := some (toString epoch),
              segs := segInsert fs.segs epoch 0 }).2 = evs) ∧
      Ev.openSeg epoch ∈ evs ∧ Ev.writeMarker epoch ∈ evs ∧
      fs'.marker = some (toString epoch) ∧
      segLookup fs' (wsub epoch me) = none := by
  refine ⟨_, _, ⟨rfl, rfl⟩, by simp, by simp, ?_, ?_⟩
  · simp only [delete_old_log_file]
    split
    · rfl
    · rfl
  · simp only [delete_old_log_file]
    split
    · exact assocFind_filter_self _ _
    · rename_i hcond
      simpa using hcond

/-- C4: `try_rotate_file` replaces the writer with a freshly opened segment
at epoch+1 and re-runs epoch enforcement (marker write, old-segment
deletion) if and only if the max-records or time trigger holds; with no
trigger, nothing happens except that a configured time trigger's stored
previous instant advances.  (The hypothesis excludes the epoch-overflow
state, where `Table::replace` traps — see C8.) -/
theorem c4_rotate_iff_triggered (r : LogRotator) (fs : Fs) (now : Nat)
    (hlt : r.table.epoch + 1 < USIZE) :
    (rotateTriggered r now = true →
      ∃ fs' evs, r.try_rotate_file fs now =
          some (⟨⟨0, r.table.epoch + 1, r.table.epoch + 1⟩,
                 (pollOnly r now).rotation⟩, fs', evs) ∧
        Ev.openSeg (r.table.epoch + 1) ∈ evs ∧
        Ev.writeMarker (r.table.epoch + 1) ∈ evs ∧
        fs'.marker = some (toString (r.table.epoch + 1)) ∧
        segLookup fs' (wsub (r.table.epoch + 1) r.rotation.max_epochs) = none) ∧
    (rotateTriggered r now = false →
      r.try_rotate_file fs now = some (pollOnly r now, fs, [])) := by
  obtain ⟨⟨rec, ep, ws⟩, mr, tm, me⟩ := r
  constructor <;>
    (intro htrig
     cases mr <;> cases tm <;>
       [skip; (rename_i tp; cases htp : tp.containsFn tp.prev now);
        (rename_i m; cases hm : decide (m ≤ rec));
        (rename_i m tp; cases hm : decide (m ≤ rec) <;>
           cases htp : tp.containsFn tp.prev now)]
     all_goals
       try simp_all only [rotateTriggered, TimePast.poll, pollOnly,
         LogRotator.try_rotate_file, LogRotator.replace_writer, openSegment,
         Table.replace, LogRotator.enforce_epoch, write_epoch,
         wadd_eq_of_lt hlt, Option.map_none, Option.map_some, Bool.or_self,
         Bool.false_or, Bool.or_false, Bool.or_true, Bool.true_or,
         Bool.true_eq_false, Bool.false_eq_true, if_true, if_false, ite_true,
         ite_false, List.cons_append, List.singleton_append, List.nil_append,
         Option.some.injEq, Prod.mk.injEq, true_and, hlt]
     all_goals try simp_all
     all_goals exact rotate_exists fs (ep + 1) me)

/-- Witness for C4 at a concrete triggered rotation (`max_records = 2`,
counter 2, epoch 0, retention window 5). -/
theorem c4_witness :
    ∃ fs' evs,
      LogRotator.try_rotate_file ⟨⟨2, 0, 0⟩, ⟨some 2, none, 5⟩⟩ ⟨none, []⟩ 0 =
        some (⟨⟨0, 0 + 1, 0 + 1⟩,
          (pollOnly ⟨⟨2, 0, 0⟩, ⟨some 2, none, 5⟩⟩ 0).rotation⟩, fs', evs) ∧
      Ev.openSeg (0 + 1) ∈ evs ∧ Ev.writeMarker (0 + 1) ∈ evs ∧
      fs'.marker = some (toString (0 + 1)) ∧
      segLookup fs' (wsub (0 + 1) 5) = none :=
  (c4_rotate_iff_triggered ⟨⟨2, 0, 0⟩, ⟨some 2, none, 5⟩⟩ ⟨none, []⟩ 0
    (by decide)).1 (by decide)

/-! ### C6: a match requires an allowed tuple differing from the last match -/

/-- Run a sequence of `edge_triggered_poll` calls, collecting the verdicts. -/
def applyPolls (m : SlotMatcher) :
    List (List Int) → Option (SlotMatcher × List Bool)
  | [] => some (m, [])
  | vs :: rest =>
    match m.edge_triggered_poll vs with
    | some (b, m') =>
      match applyPolls m' rest with
      | some (mEnd, outs) => some (mEnd, b :: outs)
      | none => none
    | none => none

/-- The latest input tuple in `polls` whose poll reported a match. -/
def lastMatched : List (List Int × Bool) → Option (List Int)
  | [] => none
  | (vs, b) :: rest =>
    match lastMatched rest with
    | some t => some t
    | none => if b then some vs else none

/-- `lastMatched`, seeded with the match (if any) from before `polls`. -/
def lastMatchedFrom (last : Option (List Int))
    (polls : List (List Int × Bool)) : Option (List Int) :=
  match lastMatched polls with
  | some t => some t
  | none => last

/-- Every field's current value lies in its allow-set. -/
def allowedAll (m : SlotMatcher) (vs : List Int) : Bool :=
  (m.cells.zip vs).all fun cv => cv.1.is_allowed cv.2

/-- The matcher's stored values are exactly the tuple of the last reported
match (`none` when no poll has matched yet). -/
def PrevsAre (m : SlotMatcher) (last : Option (List Int)) : Prop :=
  match last with
  | none => m.cells.map Cell.prev = List.replicate m.cells.length none
  | some t => m.cells.map Cell.prev = t.map some

theorem lastMatchedFrom_nil (last : Option (List Int)) :
    lastMatchedFrom last [] = last := rfl

theorem lastMatchedFrom_none_eq (l : List (List Int × Bool)) :
    lastMatchedFrom none l = lastMatched l := by
  unfold lastMatchedFrom
  cases h : lastMatched l <;> simp

theorem lastMatchedFrom_cons (last : Option (List Int)) (vs : List Int)
    (b : Bool) (l : List (List Int × Bool)) :
    lastMatchedFrom last ((vs, b) :: l) =
      lastMatchedFrom (if b = true then some vs else last) l := by
  unfold lastMatchedFrom
  have hc : lastMatched ((vs, b) :: l) =
      match lastMatched l with
      | some t => some t
      | none => if b = true then some vs else none := rfl
  rw [hc]
  cases h : lastMatched l <;> cases b <;> simp

theorem all_has_set_iff (cs : List Cell) (vs : List Int)
    (h : cs.length = vs.length) :
    (((cs.zip vs).all fun cv => cv.1.has_set cv.2) = true) ↔
      cs.map Cell.prev = vs.map some := by
  induction cs generalizing vs with
  | nil =>
    cases vs with
    | nil => simp
    | cons v vs => simp at h
  | cons c cs ih =>
    cases vs with
    | nil => simp at h
    | cons v vs =>
      simp only [List.length_cons] at h
      simp only [List.zip_cons_cons, List.all_cons, Bool.and_eq_true,
        List.map_cons, List.cons.injEq]
      rw [ih vs (by omega)]
      simp [Cell.has_set]

theorem zip_set_instrs (cs : List Cell) (vs : List Int)
    (h : cs.length = vs.length) :
    ((cs.zip vs).map fun cv => cv.1.set cv.2).map Cell.instr =
      cs.map Cell.instr := by
  induction cs generalizing vs with
  | nil =>
    cases vs with
    | nil => rfl
    | cons v vs => simp at h
  | cons c cs ih =>
    cases vs with
    | nil => simp at h
    | cons v vs =>
      simp only [List.length_cons] at h
      exact congrArg (List.cons c.instr) (ih vs (by omega))

theorem all_allowed_congr (cs cs' : List Cell) (vs : List Int)
    (h : cs.map Cell.instr = cs'.map Cell.instr) :
    ((cs.zip vs).all fun cv => cv.1.is_allowed cv.2) =
      ((cs'.zip vs).all fun cv => cv.1.is_allowed cv.2) := by
  induction cs generalizing cs' vs with
  | nil =>
    cases cs' with
    | nil => rfl
    | cons c' cs2 => simp at h
  | cons c cs ih =>
    cases cs' with
    | nil => simp at h
    | cons c' cs2 =>
      simp only [List.map_cons, List.cons.injEq] at h
      cases vs with
      | nil => rfl
      | cons v vs =>
        simp only [List.zip_cons_cons, List.all_cons]
        have h1 : c.is_allowed v = c'.is_allowed v := by
          simp [Cell.is_allowed, h.1]
        rw [h1, ih cs2 vs h.2]

theorem map_some_injective {t vs : List Int}
    (h : t.map some = vs.map some) : t = vs := by
  induction t generalizing vs with
  | nil =>
    cases vs with
    | nil => rfl
    | cons v vs => simp at h
  | cons a t ih =>
    cases vs with
    | nil => simp at h
    | cons v vs =>
      simp only [List.map_cons, List.cons.injEq, Option.some.injEq] at h
      rw [h.1, ih h.2]

theorem poll_step (m : SlotMatcher) (vs : List Int) (b : Bool)
    (m' : SlotMatcher) (last : Option (List Int))
    (hp : m.edge_triggered_poll vs = some (b, m'))
    (hinv : PrevsAre m last) :
    (b = true → allowedAll m vs = true ∧ ∀ t, last = some t → vs ≠ t) ∧
    PrevsAre m' (if b = true then some vs else last) ∧
    m'.cells.map Cell.instr = m.cells.map Cell.instr := by
  unfold SlotMatcher.edge_triggered_poll at hp
  split at hp
  case isFalse => cases hp
  case isTrue hlen =>
    by_cases hall : ((m.cells.zip vs).all fun cv => cv.1.is_allowed cv.2) = true
    · rw [if_neg (by simp [hall])] at hp
      by_cases hset : ((m.cells.zip vs).all fun cv => cv.1.has_set cv.2) = true
      · simp only [hset, Bool.not_true, Option.some.injEq, Prod.mk.injEq] at hp
        obtain ⟨hb, hm'⟩ := hp
        subst hm'
        refine ⟨fun hbt => absurd (hb ▸ hbt) (by simp), ?_, zip_set_instrs _ _ hlen⟩
        rw [if_neg (by rw [← hb]; simp)]
        have hprev : m.cells.map Cell.prev = vs.map some :=
          (all_has_set_iff _ _ hlen).mp hset
        cases hlast : last with
        | none =>
          rw [hlast] at hinv
          unfold PrevsAre at hinv ⊢
          have hvs : vs = [] := by
            cases hv : vs with
            | nil => rfl
            | cons x xs =>
              exfalso
              rw [hv] at hprev
              cases hc : m.cells with
              | nil =>
                rw [hc] at hlen
                rw [hv] at hlen
                simp at hlen
              | cons a as =>
                rw [hc] at hprev hinv
                rw [hprev] at hinv
                simp [List.replicate_succ] at hinv
          subst hvs
          have hcells : m.cells = [] := by
            cases hc : m.cells with
            | nil => rfl
            | cons a as =>
              rw [hc] at hlen
              simp at hlen
          rw [hcells]
          rfl
        | some t =>
          rw [hlast] at hinv
          unfold PrevsAre at hinv ⊢
          have : t = vs := map_some_injective (hinv.symm.trans hprev)
          rw [zip_set_prevs _ _ hlen, this]
      · simp only [eq_false_of_ne_true hset, Bool.not_false,
          Option.some.injEq, Prod.mk.injEq] at hp
        obtain ⟨hb, hm'⟩ := hp
        subst hm'
        refine ⟨fun _ => ⟨hall, ?_⟩, ?_, zip_set_instrs _ _ hlen⟩
        · intro t hlt hvt
          rw [hlt] at hinv
          unfold PrevsAre at hinv
          subst hvt
          exact hset ((all_has_set_iff _ _ hlen).mpr hinv)
        · rw [if_pos (by rw [← hb])]
          unfold PrevsAre
          exact zip_set_prevs _ _ hlen
    · rw [if_pos (by simp [eq_false_of_ne_true hall])] at hp
      simp only [Option.some.injEq, Prod.mk.injEq] at hp
      obtain ⟨hb, hm'⟩ := hp
      subst hm'
      refine ⟨fun hbt => absurd (hb ▸ hbt) (by simp), ?_, rfl⟩
      rw [if_neg (by rw [← hb]; simp)]
      exact hinv

theorem applyPolls_invariant (inputs : List (List Int)) :
    ∀ (m : SlotMatcher) (last : Option (List Int)) (mEnd : SlotMatcher)
      (outs : List Bool),
      applyPolls m inputs = some (mEnd, outs) →
      PrevsAre m last →
      outs.length = inputs.length ∧
      ∀ i (hi : i < inputs.length) (ho : i < outs.length),
        outs.get ⟨i, ho⟩ = true →
          allowedAll m (inputs.get ⟨i, hi⟩) = true ∧
          ∀ t, lastMatchedFrom last ((inputs.zip outs).take i) = some t →
            inputs.get ⟨i, hi⟩ ≠ t := by
  induction inputs with
  | nil =>
    intro m last mEnd outs h hinv
    simp only [applyPolls, Option.some.injEq, Prod.mk.injEq] at h
    obtain ⟨-, houts⟩ := h
    subst houts
    refine ⟨rfl, ?_⟩
    intro i hi
    exact absurd hi (by simp)
  | cons vs rest ih =>
    intro m last mEnd outs h hinv
    simp only [applyPolls] at h
    split at h
    case h_2 => cases h
    case h_1 b m1 hp =>
      split at h
      case h_2 => cases h
      case h_1 mE outs1 hrest =>
        simp only [Option.some.injEq, Prod.mk.injEq] at h
        obtain ⟨hmE, houts⟩ := h
        subst houts
        have step := poll_step m vs b m1 last hp hinv
        obtain ⟨hlen1, hmain⟩ :=
          ih m1 (if b = true then some vs else last) mE outs1 hrest step.2.1
        refine ⟨by simp [hlen1], ?_⟩
        intro i hi ho htrue
        cases i with
        | zero =>
          have hb : b = true := htrue
          refine ⟨(step.1 hb).1, fun t hlast => (step.1 hb).2 t hlast⟩
        | succ j =>
          have hj : j < rest.length := by simpa using hi
          have hoj : j < outs1.length := by simpa using ho
          have httrue : outs1.get ⟨j, hoj⟩ = true := htrue
          have hres := hmain j hj hoj httrue
          refine ⟨?_, ?_⟩
          · show ((m.cells.zip (rest.get ⟨j, hj⟩)).all
              fun cv => cv.1.is_allowed cv.2) = true
            rw [← all_allowed_congr m1.cells m.cells (rest.get ⟨j, hj⟩)
              step.2.2]
            exact hres.1
          · intro t hlast
            apply hres.2 t
            have heq : lastMatchedFrom last
                (((vs :: rest).zip (b :: outs1)).take (j + 1)) =
                lastMatchedFrom (if b = true then some vs else last)
                  ((rest.zip outs1).take j) := by
              simp only [List.zip_cons_cons, List.take_succ_cons]
              exact lastMatchedFrom_cons _ _ _ _
            rw [heq] at hlast
            exact hlast

/-- C6: for every sequence of polls on a freshly constructed `SlotMatcher`,
a poll reports a match only if every field's current value lies in that
field's allow-set and the full tuple of current values differs from the last
tuple that produced a match (vacuously so when no poll matched yet). -/
theorem c6_match_requires_allowed_and_changed (instrs : List AllowedSet2)
    (inputs : List (List Int)) (mEnd : SlotMatcher) (outs : List Bool)
    (hrun : applyPolls (SlotMatcher.new instrs) inputs = some (mEnd, outs))
    (i : Nat) (hi : i < inputs.length) (ho : i < outs.length)
    (ht : outs.get ⟨i, ho⟩ = true) :
    allowedAll (SlotMatcher.new instrs) (inputs.get ⟨i, hi⟩) = true ∧
    ∀ t, lastMatched ((inputs.zip outs).take i) = some t →
      inputs.get ⟨i, hi⟩ ≠ t := by
  have hnew : ∀ l : List AllowedSet2,
      (l.map Cell.new).map Cell.prev = List.replicate l.length none := by
    intro l
    induction l with
    | nil => rfl
    | cons a l ihl =>
      simp only [List.map_cons, List.length_cons, List.replicate_succ]
      exact congrArg (List.cons none) ihl
  have hrep : ∀ n : Nat,
      List.replicate n (none : Option Int) ++ [none] =
        none :: List.replicate n none := by
    intro n
    induction n with
    | zero => rfl
    | succ k ihk => simp only [List.replicate_succ, List.cons_append, ihk]
  have h0 : PrevsAre (SlotMatcher.new instrs) none := by
    unfold PrevsAre SlotMatcher.new
    simp only [List.map_append, List.length_append, hnew instrs]
    simp only [List.map_cons, List.map_nil, List.length_cons, List.length_nil,
      List.replicate_succ, List.length_map, Cell.new]
    exact hrep instrs.length
  obtain ⟨hlen, hmain⟩ :=
    applyPolls_invariant inputs (SlotMatcher.new instrs) none mEnd outs hrun h0
  have hres := hmain i hi ho ht
  refine ⟨hres.1, fun t hlast => hres.2 t ?_⟩
  rw [lastMatchedFrom_none_eq]
  exact hlast

/-- Witness for C6: one constrained field (allow-set {1}); polls
[1,7], [2,7], [1,8] yield matches at indices 0 and 2; at index 2 the tuple is
allowed and differs from the last matched tuple [1,7]. -/
theorem c6_witness :
    allowedAll (SlotMatcher.new [AllowedSet2.Selected ⟨[1]⟩]) [1, 8] = true ∧
    ([1, 8] : List Int) ≠ [1, 7] :=
  ⟨(c6_match_requires_allowed_and_changed [AllowedSet2.Selected ⟨[1]⟩]
      [[1, 7], [2, 7], [1, 8]]
      ⟨[⟨AllowedSet2.Selected ⟨[1]⟩, some 1⟩, ⟨AllowedSet2.Any, some 8⟩]⟩
      [true, false, true] (by decide) 2 (by decide) (by decide) (by decide)).1,
   (c6_match_requires_allowed_and_changed [AllowedSet2.Selected ⟨[1]⟩]
      [[1, 7], [2, 7], [1, 8]]
      ⟨[⟨AllowedSet2.Selected ⟨[1]⟩, some 1⟩, ⟨AllowedSet2.Any, some 8⟩]⟩
      [true, false, true] (by decide) 2 (by decide) (by decide) (by decide)).2
    [1, 7] (by decide)⟩

end FileRotatingLog
